import Mathlib

/-!
Verification of the link-resolution and output-path logic of the docs
generator (`nav/page.go`).

Strings are modelled as `List Char` (`Str`).  Each definition below is a
shallow embedding of the Go function of the same name from `nav/page.go`;
the Go regular expressions are anchored and fixed, and are embedded as
deterministic decomposition functions whose behaviour matches Go's RE2
leftmost-first semantics for those concrete patterns (justifications in
the doc comments).
-/

/-- Strings are modelled as lists of characters. -/
abbrev Str := List Char

/-- Convert a Lean string literal to the `List Char` model. -/
def str (s : String) : Str := s.data

/-- The error value `WrongNumberOfCaptureGroupsReturnedFromPageRegEx` from
`nav/page.go`: it carries the offending path, the regex name and the regex
pattern. -/
structure WrongNumberOfCaptureGroupsReturnedFromPageRegEx where
  inputPath : Str
  regExName : Str
  regEx : Str
  deriving DecidableEq

/-- Errors produced by the page pipeline: the regex-decomposition error of
`page.go`, or an I/O error from the `file` collaborator (payload is the
offending path; the exact message is irrelevant to the claims). -/
inductive NavError where
  | regexError (e : WrongNumberOfCaptureGroupsReturnedFromPageRegEx)
  | ioError (path : Str)
  deriving DecidableEq

/-- `FILE_PATHS_REGEX` constant from `page.go`. -/
def FILE_PATHS_REGEX : Str :=
  str "(?:http:/|https:/)?(/[A-Za-z0-9_/.-]+)|([A-Za-z0-9_/.-]+/[A-Za-z0-9_.-]*)"

/-- `PACKAGE_GITHUB_REPO_URL_PREFIX` constant from `page.go`. -/
def PACKAGE_GITHUB_REPO_URL_PREFIX : Str :=
  str "https://github.com/gruntwork-io/<package-name>/tree/master"

/-- `PACKAGE_FILE_REGEX` constant from `page.go`. -/
def PACKAGE_FILE_REGEX : Str := str "^packages/([\\w -]+)(/.*)$"

/-- `PACKAGE_FILE_REGEX_NUM_CAPTURE_GROUPS` constant from `page.go`. -/
def PACKAGE_FILE_REGEX_NUM_CAPTURE_GROUPS : Nat := 2

/-- `MARKDOWN_FILE_PATH_REGEX` constant from `page.go`. -/
def MARKDOWN_FILE_PATH_REGEX : Str := str "^.*/(.*)\\.md$"

/-- `MARKDOWN_FILE_PATH_REGEX_NUM_CAPTURE_GROUPS` constant from `page.go`. -/
def MARKDOWN_FILE_PATH_REGEX_NUM_CAPTURE_GROUPS : Nat := 1

/-! ## Go `strings` primitives used by `page.go` -/

/-- Model of Go `strings.Contains s pat`: `pat` occurs as a substring of `s`. -/
def containsSub (s pat : Str) : Bool :=
  match s with
  | [] => pat.isPrefixOf []
  | c :: t => pat.isPrefixOf (c :: t) || containsSub t pat

/-- Fuel-driven worker for `replaceAll`; fuel is the length of the string,
which suffices because every step consumes at least one character when the
pattern is non-empty. -/
def replaceAllAux (pat rep : Str) : Nat → Str → Str
  | 0, s => s
  | _ + 1, [] => []
  | fuel + 1, c :: t =>
    if pat.isPrefixOf (c :: t) then
      rep ++ replaceAllAux pat rep fuel (List.drop (pat.length - 1) t)
    else
      c :: replaceAllAux pat rep fuel t

/-- Model of Go `strings.Replace s pat rep (-1)` (replace all non-overlapping
occurrences, left to right).  `page.go` never calls it with an empty
pattern; the empty-pattern case returns `s`. -/
def replaceAll (s pat rep : Str) : Str :=
  match pat with
  | [] => s
  | _ :: _ => replaceAllAux pat rep s.length s

/-- Model of Go `strings.Replace s pat rep 1` (replace the first occurrence)
for a non-empty pattern; `page.go` only calls it with the non-empty pattern
`<package-name>`.  The empty-pattern case returns `s`. -/
def replaceFirst (s pat rep : Str) : Str :=
  match pat with
  | [] => s
  | _ :: _ => replaceFirstAux pat rep s
where
  replaceFirstAux (pat rep : Str) : Str → Str
    | [] => []
    | c :: t =>
      if pat.isPrefixOf (c :: t) then rep ++ List.drop (pat.length - 1) t
      else c :: replaceFirstAux pat rep t

/-! ## The `PACKAGE_FILE_REGEX` decomposition

`^packages/([\w -]+)(/.*)$` is anchored at both ends.  Go RE2 semantics for
this concrete pattern: the input matches iff it is
`"packages/" ++ name ++ "/" ++ tail` where `name` is a non-empty run of
characters from `[\w -]` (word characters, space, hyphen) and `tail`
contains no newline (`.` does not match a newline, and `$` without `(?m)`
only matches at end of text).  Because `/` is not in the class `[\w -]`,
the greedy `([\w -]+)` can only stop at the first character outside the
class, which must then be the `/` opening group 2 — so the decomposition is
deterministic and `name` is the maximal class run after `"packages/"`. -/

/-- Character class `[\w -]` of `PACKAGE_FILE_REGEX` (Go `\w` is
`[0-9A-Za-z_]`). -/
def isPackageNameChar (c : Char) : Bool :=
  c.isAlphanum || c == '_' || c == ' ' || c == '-'

/-- Decompose an input path per `PACKAGE_FILE_REGEX`: returns
`some (group1, group2)` on a match, `none` otherwise. -/
def packageFileRegexMatch (ip : Str) : Option (Str × Str) :=
  if (str "packages/").isPrefixOf ip then
    let rest := ip.drop 9
    let name := rest.takeWhile isPackageNameChar
    match name, rest.drop name.length with
    | _ :: _, '/' :: t =>
      if t.contains '\n' then none else some (name, '/' :: t)
    | _, _ => none
  else none

/-- Model of Go `regexp.FindAllStringSubmatch` for the anchored
`PACKAGE_FILE_REGEX`: at most one match, whose submatch row is
`[fullMatch, group1, group2]`. -/
def packageFileRegexSubmatch (ip : Str) : List (List Str) :=
  match packageFileRegexMatch ip with
  | some (name, rest) => [[ip, name, rest]]
  | none => []

/-- `isPackageInputPath` from `page.go`: `MatchString` of
`PACKAGE_FILE_REGEX`. -/
def isPackageInputPath (inputPath : Str) : Bool :=
  (packageFileRegexMatch inputPath).isSome

/-- `getPackageName` from `page.go`, including its capture-group-count
guard. -/
def getPackageName (inputPath : Str) : Except NavError Str :=
  let submatches := packageFileRegexSubmatch inputPath
  if submatches.length == 0 ||
      (submatches.getD 0 []).length != PACKAGE_FILE_REGEX_NUM_CAPTURE_GROUPS + 1 then
    .error (.regexError ⟨inputPath, str "PACKAGE_FILE_REGEX", PACKAGE_FILE_REGEX⟩)
  else
    .ok ((submatches.getD 0 []).getD 1 [])

/-- `getPathRelativeToPackageRoot` from `page.go`, including its
capture-group-count guard. -/
def getPathRelativeToPackageRoot (inputPath : Str) : Except NavError Str :=
  let submatches := packageFileRegexSubmatch inputPath
  if submatches.length == 0 ||
      (submatches.getD 0 []).length != PACKAGE_FILE_REGEX_NUM_CAPTURE_GROUPS + 1 then
    .error (.regexError ⟨inputPath, str "PACKAGE_FILE_REGEX", PACKAGE_FILE_REGEX⟩)
  else
    .ok ((submatches.getD 0 []).getD 2 [])

/-! ## Go `path/filepath` primitives used by `page.go`

`filepath.Clean` performs purely lexical cleaning.  Its byte-level loop is
equivalent to the following segment-level algorithm: split on `/`, drop
empty and `.` segments, let `..` pop the previous segment unless that
segment is itself a kept `..` (for a rooted path a `..` at the root is
dropped; for an unrooted path leading `..`s accumulate), then rejoin. -/

/-- Split a path into its `/`-separated chunks (empty chunks included). -/
def slashChunks : Str → List Str
  | [] => [[]]
  | c :: t =>
    if c == '/' then [] :: slashChunks t
    else
      match slashChunks t with
      | [] => [[c]]
      | seg :: rest => (c :: seg) :: rest

/-- Process cleaned segments: `out` is the output stack built so far. -/
def cleanSegs (rooted : Bool) : List Str → List Str → List Str
  | [], out => out
  | seg :: rest, out =>
    if seg == str "." then cleanSegs rooted rest out
    else if seg == str ".." then
      if out != [] && out.getLast? != some (str "..") then
        cleanSegs rooted rest out.dropLast
      else if rooted then cleanSegs rooted rest out
      else cleanSegs rooted rest (out ++ [str ".."])
    else cleanSegs rooted rest (out ++ [seg])

/-- Join segments with `/` separators. -/
def joinWithSlash : List Str → Str
  | [] => []
  | [s] => s
  | s :: rest => s ++ '/' :: joinWithSlash rest

/-- Model of Go `filepath.Clean` (unix separators), via the segment-level
equivalent of its byte-level loop. -/
def filepathClean (p : Str) : Str :=
  match p with
  | [] => str "."
  | c :: _ =>
    let rooted := c == '/'
    let segs := (slashChunks p).filter (fun s => s != [])
    let out := cleanSegs rooted segs []
    if rooted then '/' :: joinWithSlash out
    else if out == [] then str "." else joinWithSlash out

/-- Model of Go `filepath.Join`: skip leading empty elements, then `Clean`
the `/`-join of the rest. -/
def filepathJoin : List Str → Str
  | [] => []
  | e :: rest => if e == [] then filepathJoin rest else filepathClean (joinWithSlash (e :: rest))

/-- Model of Go `filepath.Base` (unix separators): strip trailing slashes,
then keep everything after the last `/`; empty path gives `.`, an
all-slashes path gives `/`. -/
def filepathBase (p : Str) : Str :=
  match p with
  | [] => str "."
  | _ :: _ =>
    let p1 := (p.reverse.dropWhile (fun c => c == '/')).reverse
    let base := (p1.reverse.takeWhile (fun c => c != '/')).reverse
    if base == [] then str "/" else base

/-! ## The `FILE_PATHS_REGEX` scanner

`(?:http:/|https:/)?(/[A-Za-z0-9_/.-]+)|([A-Za-z0-9_/.-]+/[A-Za-z0-9_.-]*)`
is unanchored; `FindAllStringSubmatch` returns the successive leftmost-first
matches.  At a fixed start position Go RE2 tries, in order: the first
alternative with prefix `http:/`, with prefix `https:/`, with no prefix
(each followed by `/` and a greedy non-empty run of `[A-Za-z0-9_/.-]`),
then the second alternative.  For the second alternative the greedy
`[A-Za-z0-9_/.-]+` backtracks to the last `/` inside the maximal class run,
and since the trailing class `[A-Za-z0-9_.-]` is the same class minus `/`,
the overall match is exactly the maximal `[A-Za-z0-9_/.-]` run provided
that run contains a `/` at index ≥ 1. -/

/-- Character class `[A-Za-z0-9_/.-]` of `FILE_PATHS_REGEX`. -/
def isLinkPathChar (c : Char) : Bool :=
  c.isAlphanum || c == '_' || c == '/' || c == '.' || c == '-'

/-- First alternative of `FILE_PATHS_REGEX` with a given optional prefix
already chosen: literal prefix, then `/`, then a non-empty greedy run of
`[A-Za-z0-9_/.-]`. -/
def tryHttpAlt (pfx : Str) (s : Str) : Option Str :=
  if pfx.isPrefixOf s then
    match s.drop pfx.length with
    | '/' :: t =>
      let run := t.takeWhile isLinkPathChar
      if run == [] then none else some (pfx ++ '/' :: run)
    | _ => none
  else none

/-- Leftmost-first match of `FILE_PATHS_REGEX` starting exactly at the head
of `s` (`none` if no match starts here). -/
def filePathMatchAt (s : Str) : Option Str :=
  match tryHttpAlt (str "http:/") s with
  | some m => some m
  | none =>
    match tryHttpAlt (str "https:/") s with
    | some m => some m
    | none =>
      match tryHttpAlt [] s with
      | some m => some m
      | none =>
        let run := s.takeWhile isLinkPathChar
        if (run.drop 1).contains '/' then some run else none

/-- Fuel-driven scan for successive non-overlapping matches (Go
`FindAllStringSubmatch` with count `-1`); every match is non-empty, so fuel
equal to the length of the body suffices. -/
def findFilePathsAux : Nat → Str → List Str
  | 0, _ => []
  | _ + 1, [] => []
  | fuel + 1, c :: t =>
    match filePathMatchAt (c :: t) with
    | some m => m :: findFilePathsAux fuel (List.drop (m.length - 1) t)
    | none => findFilePathsAux fuel t

/-- All matches of `FILE_PATHS_REGEX` in the body, in order. -/
def findAllFilePaths (body : Str) : List Str :=
  findFilePathsAux body.length body

/-- `getAllLinkPaths` from `page.go`: every regex match whose text contains
neither `http://` nor `https://`. -/
def getAllLinkPaths (body : Str) : List Str :=
  (findAllFilePaths body).filter
    (fun relPath => !containsSub relPath (str "http://") && !containsSub relPath (str "https://"))

/-! ## Link resolution -/

/-- `convertPackageLinkToUrl` from `page.go`.  The three `strings.HasPrefix`
tests are written as an if-chain: the Go code runs them sequentially on the
same `url` variable, but at most one can fire since `/`, `./` and `../` are
pairwise non-overlapping prefixes. -/
def convertPackageLinkToUrl (inputPath linkPath : Str) : Except NavError Str :=
  if isPackageInputPath inputPath then
    match getPackageName inputPath with
    | .error e => .error e
    | .ok packageName =>
      let urlPrefix :=
        replaceFirst PACKAGE_GITHUB_REPO_URL_PREFIX (str "<package-name>") packageName
      if (str "/").isPrefixOf linkPath then
        .ok (urlPrefix ++ linkPath)
      else if (str "./").isPrefixOf linkPath then
        match getPathRelativeToPackageRoot inputPath with
        | .error e => .error e
        | .ok relPath => .ok (urlPrefix ++ relPath)
      else if (str "../").isPrefixOf linkPath then
        match getPathRelativeToPackageRoot inputPath with
        | .error e => .error e
        | .ok relPath => .ok (urlPrefix ++ filepathJoin [relPath, str "../", linkPath])
      else
        .ok []
  else
    .ok linkPath

/-- The per-link body update of `convertMarkdownLinksToUrls`: replace the
parenthesised and the space-surrounded occurrences of the link. -/
def replaceLinkOccurrences (linkPath url body : Str) : Str :=
  let withParens :=
    replaceAll body (str "(" ++ linkPath ++ str ")") (str "(" ++ url ++ str ")")
  replaceAll withParens (str " " ++ linkPath ++ str " ") (str " " ++ url ++ str " ")

/-- The loop of `convertMarkdownLinksToUrls` over the discovered link
paths. -/
def convertLinksLoop (inputPath : Str) : List Str → Str → Except NavError Str
  | [], body => .ok body
  | linkPath :: rest, body =>
    match convertPackageLinkToUrl inputPath linkPath with
    | .error e => .error e
    | .ok url => convertLinksLoop inputPath rest (replaceLinkOccurrences linkPath url body)

/-- `convertMarkdownLinksToUrls` from `page.go`. -/
def convertMarkdownLinksToUrls (inputPath body : Str) : Except NavError Str :=
  convertLinksLoop inputPath (getAllLinkPaths body) body

/-! ## Markdown file extension replacement -/

/-- Go `strings.HasSuffix`, via reversed prefix testing. -/
def hasSuffixStr (s suffix : Str) : Bool :=
  suffix.reverse.isPrefixOf s.reverse

/-- Split a path at its last `/`: `some (before, after)` with `after`
slash-free, or `none` when the path contains no `/`. -/
def lastSlashSplit (p : Str) : Option (Str × Str) :=
  let revPost := p.reverse.takeWhile (fun c => c != '/')
  if revPost.length == p.length then none
  else some (p.take (p.length - revPost.length - 1), revPost.reverse)

/-- Model of Go `regexp.FindAllStringSubmatch` for the anchored
`MARKDOWN_FILE_PATH_REGEX` (`^.*/(.*)\.md$`): it matches iff the path has
no newline (`.` never matches a newline and the regex spans the anchored
whole text), ends with `.md`, and contains a `/`; the greedy leading `.*`
puts the last `/` before group 1, so group 1 is the text between the last
`/` and the trailing `.md`.  The row is `[fullMatch, group1]`. -/
def markdownFilePathRegexSubmatch (p : Str) : List (List Str) :=
  if p.contains '\n' then []
  else if hasSuffixStr p (str ".md") then
    match lastSlashSplit p with
    | some (_, post) => [[p, post.take (post.length - 3)]]
    | none => []
  else []

/-- `replaceMdFileExtensionWithHtmlFileExtension` from `page.go`, including
its capture-group-count guard. -/
def replaceMdFileExtensionWithHtmlFileExtension (path : Str) : Except NavError Str :=
  let submatches := markdownFilePathRegexSubmatch path
  if submatches.length == 0 ||
      (submatches.getD 0 []).length != MARKDOWN_FILE_PATH_REGEX_NUM_CAPTURE_GROUPS + 1 then
    .error (.regexError ⟨path, str "MARKDOWN_FILE_PATH_REGEX", MARKDOWN_FILE_PATH_REGEX⟩)
  else
    let filename := (submatches.getD 0 []).getD 1 []
    let filenameDotMd := filename ++ str ".md"
    let filenameDotHtml := filename ++ str ".html"
    .ok (replaceAll path filenameDotMd filenameDotHtml)

/-! ## Pages -/

/-- The `File` record from the generator (`InputPath` relative to the source
root, `FullInputPath` absolute, `OutputPath` relative to the output
root). -/
structure File where
  InputPath : Str
  FullInputPath : Str
  OutputPath : Str

/-- The `Page` struct from `page.go`.  The `ParentFolder` back-reference is
part of the navigation tree and plays no role in the claims about
`page.go`; it is omitted from the model. -/
structure Page extends File where
  Title : Str
  BodyMarkdown : Str
  BodyHtml : Str
  GithubUrl : Str

/-- ASCII model of Go `strings.isSeparator`: for ASCII runes, everything
except alphanumerics and `_` separates words. -/
def isWordSeparator (c : Char) : Bool :=
  !(c.isAlphanum || c == '_')

/-- Worker for `stringsTitle`, carrying the previous rune. -/
def stringsTitleAux : Char → Str → Str
  | _, [] => []
  | prev, c :: t =>
    (if isWordSeparator prev then c.toUpper else c) :: stringsTitleAux c t

/-- ASCII model of Go `strings.Title`: upper-case every rune that begins a
word (previous rune is a separator; the scan starts as if after a space). -/
def stringsTitle (s : Str) : Str := stringsTitleAux ' ' s

/-- `Page.getTitle` from `page.go`: the text of the output filename before
its first `.`, title-cased. -/
def getTitle (p : Page) : Str :=
  let fileNameFull := filepathBase p.OutputPath
  let title := fileNameFull.takeWhile (fun c => c != '.')
  stringsTitle title

/-- `Page.PopulateAllProperties` from `page.go`, parameterised by the two
external collaborators it calls: `file.ReadFile` and the Markdown-to-HTML
converter (a pure function per the spec).  The body is read from
`FullInputPath`, link-rewritten against `InputPath`, converted to HTML, and
the GitHub URL is the link resolution of the self-referential `./`. -/
def PopulateAllProperties (readFile : Str → Except NavError Str)
    (toHtml : Str → Str) (p : Page) : Except NavError Page :=
  let title := getTitle p
  match readFile p.FullInputPath with
  | .error e => .error e
  | .ok rawBody =>
    match convertMarkdownLinksToUrls p.InputPath rawBody with
    | .error e => .error e
    | .ok bodyMarkdown =>
      let bodyHtml := toHtml bodyMarkdown
      match convertPackageLinkToUrl p.InputPath (str "./") with
      | .error e => .error e
      | .ok githubUrl =>
        .ok { p with
              Title := title, BodyMarkdown := bodyMarkdown,
              BodyHtml := bodyHtml, GithubUrl := githubUrl }

/-! ## Helper lemmas -/

/-- A replacement whose pattern does not occur leaves the string unchanged. -/
theorem replaceAllAux_of_not_contains (pat rep : Str) :
    ∀ (fuel : Nat) (s : Str), containsSub s pat = false →
      replaceAllAux pat rep fuel s = s := by
  intro fuel
  induction fuel with
  | zero => intro s _; rfl
  | succ fuel ih =>
    intro s hs
    match s with
    | [] => rfl
    | c :: t =>
      rw [containsSub] at hs
      rw [Bool.or_eq_false_iff] at hs
      rw [replaceAllAux, if_neg (by simp [hs.1]), ih t hs.2]

/-- `replaceAll` with an absent pattern is the identity. -/
theorem replaceAll_of_not_contains (s pat rep : Str) (h : containsSub s pat = false) :
    replaceAll s pat rep = s := by
  match pat with
  | [] => rfl
  | p :: ps => exact replaceAllAux_of_not_contains (p :: ps) rep s.length s h

/-- On a `PACKAGE_FILE_REGEX` match, `getPackageName` returns group 1. -/
theorem getPackageName_of_match (ip n r : Str)
    (h : packageFileRegexMatch ip = some (n, r)) :
    getPackageName ip = .ok n := by
  simp [getPackageName, packageFileRegexSubmatch, h,
    PACKAGE_FILE_REGEX_NUM_CAPTURE_GROUPS, List.getD]

/-- On a `PACKAGE_FILE_REGEX` match, `getPathRelativeToPackageRoot` returns
group 2. -/
theorem getPathRelativeToPackageRoot_of_match (ip n r : Str)
    (h : packageFileRegexMatch ip = some (n, r)) :
    getPathRelativeToPackageRoot ip = .ok r := by
  simp [getPathRelativeToPackageRoot, packageFileRegexSubmatch, h,
    PACKAGE_FILE_REGEX_NUM_CAPTURE_GROUPS, List.getD]

/-- Substituting the package name into `PACKAGE_GITHUB_REPO_URL_PREFIX`. -/
theorem urlPrefix_eq (n : Str) :
    replaceFirst PACKAGE_GITHUB_REPO_URL_PREFIX (str "<package-name>") n =
      str "https://github.com/gruntwork-io/" ++ n ++ str "/tree/master" := rfl

/-- A `./`-prefixed link starts with dot, slash. -/
theorem dotSlash_shape (lp : Str) (h : (str "./").isPrefixOf lp = true) :
    ∃ t, lp = '.' :: '/' :: t := by
  have e : str "./" = ['.', '/'] := rfl
  rw [e] at h
  match lp, h with
  | [], h => simp [List.isPrefixOf] at h
  | [c1], h => simp [List.isPrefixOf] at h
  | c1 :: c2 :: t, h =>
    simp [List.isPrefixOf] at h
    exact ⟨t, by rw [← h.1, ← h.2]⟩

/-- A `../`-prefixed link starts with dot, dot, slash. -/
theorem dotDotSlash_shape (lp : Str) (h : (str "../").isPrefixOf lp = true) :
    ∃ t, lp = '.' :: '.' :: '/' :: t := by
  have e : str "../" = ['.', '.', '/'] := rfl
  rw [e] at h
  match lp, h with
  | [], h => simp [List.isPrefixOf] at h
  | [c1], h => simp [List.isPrefixOf] at h
  | [c1, c2], h => simp [List.isPrefixOf] at h
  | c1 :: c2 :: c3 :: t, h =>
    simp [List.isPrefixOf] at h
    exact ⟨t, by rw [← h.1, ← h.2.1, ← h.2.2]⟩

/-- `convertPackageLinkToUrl` on a package page and a `./`-link: the URL is
the package prefix followed by the path relative to the package root; the
text of the link after `./` never appears. -/
theorem convert_dotSlash_eq (ip lp n r : Str)
    (h : packageFileRegexMatch ip = some (n, r))
    (hlp : (str "./").isPrefixOf lp = true) :
    convertPackageLinkToUrl ip lp =
      .ok (str "https://github.com/gruntwork-io/" ++ n ++ str "/tree/master" ++ r) := by
  have hpkg : isPackageInputPath ip = true := by simp [isPackageInputPath, h]
  obtain ⟨t, rfl⟩ := dotSlash_shape lp hlp
  have hslash : (str "/").isPrefixOf ('.' :: '/' :: t) = false := by
    simp [str, List.isPrefixOf]
  simp only [convertPackageLinkToUrl, hpkg, getPackageName_of_match ip n r h,
    getPathRelativeToPackageRoot_of_match ip n r h, hslash, hlp, urlPrefix_eq,
    if_true, if_false, Bool.false_eq_true, ite_true, ite_false]

/-- `convertPackageLinkToUrl` on a package page and a `../`-link: the URL is
the package prefix followed by the cleaned join of the relative path, `../`
and the link. -/
theorem convert_dotDotSlash_eq (ip lp n r : Str)
    (h : packageFileRegexMatch ip = some (n, r))
    (hlp : (str "../").isPrefixOf lp = true) :
    convertPackageLinkToUrl ip lp =
      .ok (str "https://github.com/gruntwork-io/" ++ n ++ str "/tree/master" ++
        filepathJoin [r, str "../", lp]) := by
  have hpkg : isPackageInputPath ip = true := by simp [isPackageInputPath, h]
  obtain ⟨t, rfl⟩ := dotDotSlash_shape lp hlp
  have hslash : (str "/").isPrefixOf ('.' :: '.' :: '/' :: t) = false := by
    simp [str, List.isPrefixOf]
  have hdot : (str "./").isPrefixOf ('.' :: '.' :: '/' :: t) = false := by
    simp [str, List.isPrefixOf]
  simp only [convertPackageLinkToUrl, hpkg, getPackageName_of_match ip n r h,
    getPathRelativeToPackageRoot_of_match ip n r h, hslash, hdot, hlp, urlPrefix_eq,
    if_true, if_false, Bool.false_eq_true, ite_true, ite_false]

/-- `convertPackageLinkToUrl` always succeeds: on a non-package page it
returns the link; on a package page the regex that passed
`isPackageInputPath` always yields both capture groups. -/
theorem convertPackageLinkToUrl_isOk (ip lp : Str) :
    ∃ u, convertPackageLinkToUrl ip lp = .ok u := by
  cases hm : packageFileRegexMatch ip with
  | none =>
    have hpkg : isPackageInputPath ip = false := by simp [isPackageInputPath, hm]
    exact ⟨lp, by simp [convertPackageLinkToUrl, hpkg]⟩
  | some nr =>
    obtain ⟨n, r⟩ := nr
    have hpkg : isPackageInputPath ip = true := by simp [isPackageInputPath, hm]
    by_cases h1 : (str "/").isPrefixOf lp = true
    · exact ⟨replaceFirst PACKAGE_GITHUB_REPO_URL_PREFIX (str "<package-name>") n ++ lp,
        by simp [convertPackageLinkToUrl, hpkg, getPackageName_of_match ip n r hm, h1]⟩
    · by_cases h2 : (str "./").isPrefixOf lp = true
      · exact ⟨replaceFirst PACKAGE_GITHUB_REPO_URL_PREFIX (str "<package-name>") n ++ r, by
          simp [convertPackageLinkToUrl, hpkg, getPackageName_of_match ip n r hm,
            getPathRelativeToPackageRoot_of_match ip n r hm, h1, h2]⟩
      · by_cases h3 : (str "../").isPrefixOf lp = true
        · exact ⟨replaceFirst PACKAGE_GITHUB_REPO_URL_PREFIX (str "<package-name>") n ++
              filepathJoin [r, str "../", lp], by
            simp [convertPackageLinkToUrl, hpkg, getPackageName_of_match ip n r hm,
              getPathRelativeToPackageRoot_of_match ip n r hm, h1, h2, h3]⟩
        · exact ⟨[], by
            simp [convertPackageLinkToUrl, hpkg, getPackageName_of_match ip n r hm,
              getPathRelativeToPackageRoot_of_match ip n r hm, h1, h2, h3]⟩

/-- The rewrite loop leaves the body unchanged when, for every discovered
link, neither the parenthesised nor the space-surrounded context occurs in
the body. -/
theorem convertLinksLoop_id (ip : Str) (lps : List Str) (body : Str)
    (h : ∀ lp ∈ lps, containsSub body (str "(" ++ lp ++ str ")") = false ∧
      containsSub body (str " " ++ lp ++ str " ") = false) :
    convertLinksLoop ip lps body = .ok body := by
  induction lps with
  | nil => rfl
  | cons lp rest ih =>
    obtain ⟨u, hu⟩ := convertPackageLinkToUrl_isOk ip lp
    have h1 := (h lp (by simp)).1
    have h2 := (h lp (by simp)).2
    have hrepl : replaceLinkOccurrences lp u body = body := by
      simp only [replaceLinkOccurrences]
      rw [replaceAll_of_not_contains _ _ _ h1, replaceAll_of_not_contains _ _ _ h2]
    simp only [convertLinksLoop, hu, hrepl]
    exact ih (fun l hl => h l (List.mem_cons_of_mem lp hl))

/-- `replaceMdFileExtensionWithHtmlFileExtension` fails with the
`MARKDOWN_FILE_PATH_REGEX` error whenever the path does not end in `.md`. -/
theorem replaceMd_error_of_not_md (p : Str) (h : hasSuffixStr p (str ".md") = false) :
    replaceMdFileExtensionWithHtmlFileExtension p =
      .error (.regexError ⟨p, str "MARKDOWN_FILE_PATH_REGEX", MARKDOWN_FILE_PATH_REGEX⟩) := by
  have hsub : markdownFilePathRegexSubmatch p = [] := by
    rw [markdownFilePathRegexSubmatch]
    by_cases hnl : p.contains '\n' = true
    · rw [if_pos hnl]
    · rw [if_neg hnl, if_neg (by simp [h])]
  simp [replaceMdFileExtensionWithHtmlFileExtension, hsub]

/-- A reversed string starting with `dkm.` (i.e. ending in `.mkd`) does not
start with `dm.` (i.e. does not end in `.md`). -/
theorem revPrefix_md_false_of_mkd (q : Str)
    (h : List.isPrefixOf ['d', 'k', 'm', '.'] q = true) :
    List.isPrefixOf ['d', 'm', '.'] q = false := by
  match q with
  | [] => simp [List.isPrefixOf] at h
  | [a] => simp [List.isPrefixOf] at h
  | a :: b :: q2 =>
    simp only [List.isPrefixOf, Bool.and_eq_true, beq_iff_eq] at h
    obtain ⟨ha, hb, -⟩ := h
    simp [List.isPrefixOf, ← ha, ← hb]

/-- A reversed string starting with `n` (ending `.markdown`, `.mdown` or
`.mkdn`) does not start with `dm.` (does not end in `.md`). -/
theorem revPrefix_md_false_of_n (q : Str) (c : Char) (hc : ('d' == c) = false)
    (h : List.isPrefixOf [c] q = true) :
    List.isPrefixOf ['d', 'm', '.'] q = false := by
  match q with
  | [] => simp [List.isPrefixOf] at h
  | a :: q1 =>
    simp only [List.isPrefixOf, Bool.and_eq_true, beq_iff_eq] at h
    obtain ⟨ha, -⟩ := h
    simp [List.isPrefixOf, ← ha, hc]

/-- A list starting with `a :: as` also starts with `[a]`. -/
theorem isPrefixOf_head (a : Char) (as q : Str) (h : List.isPrefixOf (a :: as) q = true) :
    List.isPrefixOf [a] q = true := by
  match q with
  | [] => simp [List.isPrefixOf] at h
  | b :: t =>
    simp only [List.isPrefixOf, Bool.and_eq_true] at h ⊢
    exact ⟨h.1, trivial⟩

/-! ## Claim theorems -/

/-- C1 (counterexample): for the package page `packages/pkg/README.md` and
the link `./foo`, `convertPackageLinkToUrl` returns
`.../pkg/tree/master/README.md` — the link's remainder `foo` is NOT
appended, so the claimed URL (relative path with the remainder appended)
differs from what the code returns. -/
theorem convertPackageLinkToUrl_dotSlash_counterexample :
    convertPackageLinkToUrl (str "packages/pkg/README.md") (str "./foo") =
      .ok (str "https://github.com/gruntwork-io/pkg/tree/master/README.md") ∧
    str "https://github.com/gruntwork-io/pkg/tree/master/README.md" ≠
      str "https://github.com/gruntwork-io/pkg/tree/master/README.mdfoo" :=
  ⟨rfl, by decide⟩

/-- C1 (amended): for a package page and a `./`-prefixed link,
`convertPackageLinkToUrl` returns the package GitHub prefix followed by the
input path relative to the package root; the text of the link after `./` is
discarded (for the self-link `./` this agrees with the original claim). -/
theorem convertPackageLinkToUrl_dotSlash_drops_remainder (ip lp n r : Str)
    (h : packageFileRegexMatch ip = some (n, r))
    (hlp : (str "./").isPrefixOf lp = true) :
    convertPackageLinkToUrl ip lp =
      .ok (str "https://github.com/gruntwork-io/" ++ n ++ str "/tree/master" ++ r) :=
  convert_dotSlash_eq ip lp n r h hlp

/-- C1 (witness): the amended theorem at a concrete package page and a
`./`-link with a non-empty remainder. -/
theorem convertPackageLinkToUrl_dotSlash_drops_remainder_witness :
    packageFileRegexMatch (str "packages/module-vpc/modules/vpc-app/README.md") =
      some (str "module-vpc", str "/modules/vpc-app/README.md") ∧
    convertPackageLinkToUrl (str "packages/module-vpc/modules/vpc-app/README.md")
        (str "./subdir/extra.md") =
      .ok (str "https://github.com/gruntwork-io/module-vpc/tree/master/modules/vpc-app/README.md") :=
  ⟨rfl, convertPackageLinkToUrl_dotSlash_drops_remainder
    (str "packages/module-vpc/modules/vpc-app/README.md") (str "./subdir/extra.md")
    (str "module-vpc") (str "/modules/vpc-app/README.md") rfl rfl⟩

/-- C3: for an input path that does not match `PACKAGE_FILE_REGEX`,
`convertPackageLinkToUrl` returns the link unchanged with no error, for
every link. -/
theorem convertPackageLinkToUrl_nonPackage_id (ip lp : Str)
    (h : isPackageInputPath ip = false) :
    convertPackageLinkToUrl ip lp = .ok lp := by
  simp [convertPackageLinkToUrl, h]

/-- C3 (witness): a path whose package-name segment contains `.` (outside
`[\w -]`) is not a package path, and an arbitrary link passes through. -/
theorem convertPackageLinkToUrl_nonPackage_id_witness :
    isPackageInputPath (str "packages/pack.age/README.md") = false ∧
    convertPackageLinkToUrl (str "packages/pack.age/README.md") (str "./foo") =
      .ok (str "./foo") :=
  ⟨rfl, convertPackageLinkToUrl_nonPackage_id
    (str "packages/pack.age/README.md") (str "./foo") rfl⟩

/-- C6: `replaceMdFileExtensionWithHtmlFileExtension` maps `foo/bar.md` to
`foo/bar.html`, and on every path without a trailing `.md` it returns the
error value carrying the offending path and the regex name, rather than
panicking. -/
theorem replaceMdFileExtension_roundtrip_and_error :
    replaceMdFileExtensionWithHtmlFileExtension (str "foo/bar.md") =
      .ok (str "foo/bar.html") ∧
    ∀ p : Str, hasSuffixStr p (str ".md") = false →
      replaceMdFileExtensionWithHtmlFileExtension p =
        .error (.regexError ⟨p, str "MARKDOWN_FILE_PATH_REGEX", MARKDOWN_FILE_PATH_REGEX⟩) :=
  ⟨rfl, replaceMd_error_of_not_md⟩

/-- C6 (witness): the error half of the theorem at the concrete path
`foo/bar.txt`. -/
theorem replaceMdFileExtension_roundtrip_and_error_witness :
    hasSuffixStr (str "foo/bar.txt") (str ".md") = false ∧
    replaceMdFileExtensionWithHtmlFileExtension (str "foo/bar.txt") =
      .error (.regexError ⟨str "foo/bar.txt", str "MARKDOWN_FILE_PATH_REGEX",
        MARKDOWN_FILE_PATH_REGEX⟩) :=
  ⟨rfl, replaceMdFileExtension_roundtrip_and_error.2 (str "foo/bar.txt") rfl⟩

/-- C9: on a package page, a link starting with none of `/`, `./`, `../`
makes `convertPackageLinkToUrl` return the empty string with no error: the
link is neither preserved nor rewritten. -/
theorem convertPackageLinkToUrl_bareRelative_empty (ip lp : Str)
    (h : isPackageInputPath ip = true)
    (h1 : (str "/").isPrefixOf lp = false)
    (h2 : (str "./").isPrefixOf lp = false)
    (h3 : (str "../").isPrefixOf lp = false) :
    convertPackageLinkToUrl ip lp = .ok [] := by
  cases hm : packageFileRegexMatch ip with
  | none => rw [isPackageInputPath, hm] at h; simp at h
  | some nr =>
    obtain ⟨n, r⟩ := nr
    simp [convertPackageLinkToUrl, isPackageInputPath, hm,
      getPackageName_of_match ip n r hm,
      getPathRelativeToPackageRoot_of_match ip n r hm, h1, h2, h3]

/-- C9 (witness): the theorem at the package page `packages/pkg/README.md`
and the bare relative link `foo/bar`. -/
theorem convertPackageLinkToUrl_bareRelative_empty_witness :
    isPackageInputPath (str "packages/pkg/README.md") = true ∧
    convertPackageLinkToUrl (str "packages/pkg/README.md") (str "foo/bar") = .ok [] :=
  ⟨rfl, convertPackageLinkToUrl_bareRelative_empty
    (str "packages/pkg/README.md") (str "foo/bar") rfl rfl rfl rfl⟩

/-- C10: under `isPackageInputPath`, the error branches of `getPackageName`
and `getPathRelativeToPackageRoot` are unreachable — both succeed, and
`convertPackageLinkToUrl` returns a nil error for every link. -/
theorem packageRegex_error_branches_unreachable (ip : Str)
    (h : isPackageInputPath ip = true) :
    (∃ n, getPackageName ip = .ok n) ∧
    (∃ r, getPathRelativeToPackageRoot ip = .ok r) ∧
    (∀ lp, ∃ u, convertPackageLinkToUrl ip lp = .ok u) := by
  cases hm : packageFileRegexMatch ip with
  | none => rw [isPackageInputPath, hm] at h; simp at h
  | some nr =>
    obtain ⟨n, r⟩ := nr
    exact ⟨⟨n, getPackageName_of_match ip n r hm⟩,
      ⟨r, getPathRelativeToPackageRoot_of_match ip n r hm⟩,
      fun lp => convertPackageLinkToUrl_isOk ip lp⟩

/-- C10 (witness): the theorem at a concrete package page, with the `../`
case of the last conjunct instantiated. -/
theorem packageRegex_error_branches_unreachable_witness :
    isPackageInputPath (str "packages/pkg/docs/x.md") = true ∧
    (∃ n, getPackageName (str "packages/pkg/docs/x.md") = .ok n) ∧
    (∃ r, getPathRelativeToPackageRoot (str "packages/pkg/docs/x.md") = .ok r) ∧
    (∃ u, convertPackageLinkToUrl (str "packages/pkg/docs/x.md") (str "../y") = .ok u) := by
  have h := packageRegex_error_branches_unreachable (str "packages/pkg/docs/x.md") rfl
  exact ⟨rfl, h.1, h.2.1, h.2.2 (str "../y")⟩

/-- C7: for a package page and a `../`-prefixed link,
`convertPackageLinkToUrl` returns the package GitHub prefix followed by the
`..`-collapsing normalized join (Go `filepath.Join`) of the input path
relative to the package root, `../`, and the link. -/
theorem convertPackageLinkToUrl_parentRelative (ip lp n r : Str)
    (h : packageFileRegexMatch ip = some (n, r))
    (hlp : (str "../").isPrefixOf lp = true) :
    convertPackageLinkToUrl ip lp =
      .ok (str "https://github.com/gruntwork-io/" ++ n ++ str "/tree/master" ++
        filepathJoin [r, str "../", lp]) :=
  convert_dotDotSlash_eq ip lp n r h hlp

/-- C7 (witness): the theorem at a concrete module page; the join collapses
the two `..` segments into `/modules/vpc-mgmt/README.md`. -/
theorem convertPackageLinkToUrl_parentRelative_witness :
    packageFileRegexMatch (str "packages/module-vpc/modules/vpc-app/README.md") =
      some (str "module-vpc", str "/modules/vpc-app/README.md") ∧
    convertPackageLinkToUrl (str "packages/module-vpc/modules/vpc-app/README.md")
        (str "../vpc-mgmt/README.md") =
      .ok (str "https://github.com/gruntwork-io/module-vpc/tree/master/modules/vpc-mgmt/README.md") :=
  ⟨rfl, convertPackageLinkToUrl_parentRelative
    (str "packages/module-vpc/modules/vpc-app/README.md") (str "../vpc-mgmt/README.md")
    (str "module-vpc") (str "/modules/vpc-app/README.md") rfl rfl⟩

/-- C2 (counterexample): a module doc file with the markdown extension
`.mkd` is NOT normalized to `.html`: `replaceMdFileExtensionWithHtmlFileExtension`
returns the `MARKDOWN_FILE_PATH_REGEX` error for it, because the regex only
accepts a trailing `.md`. -/
theorem replaceMdFileExtension_mkd_counterexample :
    replaceMdFileExtensionWithHtmlFileExtension
        (str "packages/module-vpc/modules/vpc-app/_docs/x.mkd") =
      .error (.regexError ⟨str "packages/module-vpc/modules/vpc-app/_docs/x.mkd",
        str "MARKDOWN_FILE_PATH_REGEX", MARKDOWN_FILE_PATH_REGEX⟩) := rfl

/-- C2 (amended): only the `.md` extension is normalized to `.html`
(`foo/bar.md` becomes `foo/bar.html`); a filename ending in any of the
other markdown extensions (`.markdown`, `.mdown`, `.mkdn`, `.mkd`) makes
the extension replacement fail with the `MARKDOWN_FILE_PATH_REGEX` error
instead of producing an output name. -/
theorem replaceMdFileExtension_only_md (p : Str)
    (h : hasSuffixStr p (str ".markdown") = true ∨ hasSuffixStr p (str ".mdown") = true ∨
      hasSuffixStr p (str ".mkdn") = true ∨ hasSuffixStr p (str ".mkd") = true) :
    replaceMdFileExtensionWithHtmlFileExtension (str "foo/bar.md") =
      .ok (str "foo/bar.html") ∧
    replaceMdFileExtensionWithHtmlFileExtension p =
      .error (.regexError ⟨p, str "MARKDOWN_FILE_PATH_REGEX", MARKDOWN_FILE_PATH_REGEX⟩) := by
  refine ⟨rfl, replaceMd_error_of_not_md p ?_⟩
  rw [hasSuffixStr]
  have emd : (str ".md").reverse = ['d', 'm', '.'] := rfl
  rw [emd]
  rcases h with h | h | h | h <;> rw [hasSuffixStr] at h
  · have e : (str ".markdown").reverse = 'n' :: str "wodkram." := rfl
    rw [e] at h
    exact revPrefix_md_false_of_n p.reverse 'n' rfl (isPrefixOf_head 'n' _ _ h)
  · have e : (str ".mdown").reverse = 'n' :: str "wodm." := rfl
    rw [e] at h
    exact revPrefix_md_false_of_n p.reverse 'n' rfl (isPrefixOf_head 'n' _ _ h)
  · have e : (str ".mkdn").reverse = 'n' :: str "dkm." := rfl
    rw [e] at h
    exact revPrefix_md_false_of_n p.reverse 'n' rfl (isPrefixOf_head 'n' _ _ h)
  · have e : (str ".mkd").reverse = ['d', 'k', 'm', '.'] := rfl
    rw [e] at h
    exact revPrefix_md_false_of_mkd p.reverse h

/-- C2 (witness): the amended theorem at the concrete path `a/b.mkd`. -/
theorem replaceMdFileExtension_only_md_witness :
    hasSuffixStr (str "a/b.mkd") (str ".mkd") = true ∧
    replaceMdFileExtensionWithHtmlFileExtension (str "a/b.mkd") =
      .error (.regexError ⟨str "a/b.mkd", str "MARKDOWN_FILE_PATH_REGEX",
        MARKDOWN_FILE_PATH_REGEX⟩) :=
  ⟨rfl, (replaceMdFileExtension_only_md (str "a/b.mkd") (Or.inr (Or.inr (Or.inr rfl)))).2⟩

/-- C4: when every raw `FILE_PATHS_REGEX` match in the body contains
`http://` or `https://` (the body's only link tokens are already fully
qualified), `getAllLinkPaths` selects nothing and
`convertMarkdownLinksToUrls` returns the body unchanged — so the rewrite
is idempotent on fully-qualified links. -/
theorem convertMarkdownLinksToUrls_fullyQualified_unchanged (ip body : Str)
    (h : ∀ t ∈ findAllFilePaths body,
      containsSub t (str "http://") = true ∨ containsSub t (str "https://") = true) :
    convertMarkdownLinksToUrls ip body = .ok body := by
  have hnil : getAllLinkPaths body = [] := by
    rw [getAllLinkPaths, List.filter_eq_nil_iff]
    intro a ha
    rcases h a ha with h1 | h1 <;> simp [h1]
  rw [convertMarkdownLinksToUrls, hnil]
  rfl

/-- C4 (witness): a body whose only link token is a fully qualified URL is
returned unchanged. -/
theorem convertMarkdownLinksToUrls_fullyQualified_unchanged_witness :
    (∀ t ∈ findAllFilePaths (str "click (https://github.com/gruntwork-io/module-vpc) here"),
      containsSub t (str "http://") = true ∨ containsSub t (str "https://") = true) ∧
    convertMarkdownLinksToUrls (str "packages/pkg/README.md")
        (str "click (https://github.com/gruntwork-io/module-vpc) here") =
      .ok (str "click (https://github.com/gruntwork-io/module-vpc) here") :=
  ⟨by decide, convertMarkdownLinksToUrls_fullyQualified_unchanged
    (str "packages/pkg/README.md")
    (str "click (https://github.com/gruntwork-io/module-vpc) here") (by decide)⟩

/-- C5: `convertMarkdownLinksToUrls` performs replacements only for a
candidate wrapped in parentheses or surrounded by single spaces: if the
body contains neither context for any candidate, every occurrence of every
candidate (for example inside a longer URL or adjacent to punctuation) is
left byte-for-byte unchanged. -/
theorem convertMarkdownLinksToUrls_frame (ip body : Str)
    (h : ∀ lp ∈ getAllLinkPaths body,
      containsSub body (str "(" ++ lp ++ str ")") = false ∧
      containsSub body (str " " ++ lp ++ str " ") = false) :
    convertMarkdownLinksToUrls ip body = .ok body :=
  convertLinksLoop_id ip (getAllLinkPaths body) body h

/-- C5 (witness): the token `/foo/bar` occurs in the body adjacent to a
comma (neither `(/foo/bar)` nor ` /foo/bar ` occurs), so the body is
unchanged. -/
theorem convertMarkdownLinksToUrls_frame_witness :
    (∀ lp ∈ getAllLinkPaths (str "see /foo/bar, ok"),
      containsSub (str "see /foo/bar, ok") (str "(" ++ lp ++ str ")") = false ∧
      containsSub (str "see /foo/bar, ok") (str " " ++ lp ++ str " ") = false) ∧
    convertMarkdownLinksToUrls (str "packages/pkg/README.md") (str "see /foo/bar, ok") =
      .ok (str "see /foo/bar, ok") :=
  ⟨by decide, convertMarkdownLinksToUrls_frame
    (str "packages/pkg/README.md") (str "see /foo/bar, ok") (by decide)⟩

/-- C8: when `PopulateAllProperties` succeeds, the resulting page's
`GithubUrl` is exactly the link resolution of the page's own `InputPath`
with the self-referential link `./`; in particular on a package page it is
the package GitHub prefix followed by the page's path relative to its
package root. -/
theorem populateAllProperties_githubUrl
    (readFile : Str → Except NavError Str) (toHtml : Str → Str) (p p' : Page)
    (h : PopulateAllProperties readFile toHtml p = .ok p') :
    convertPackageLinkToUrl p.InputPath (str "./") = .ok p'.GithubUrl ∧
    (∀ n r, packageFileRegexMatch p.InputPath = some (n, r) →
      p'.GithubUrl = str "https://github.com/gruntwork-io/" ++ n ++ str "/tree/master" ++ r) := by
  rw [PopulateAllProperties] at h
  split at h
  · exact absurd h (by simp)
  · split at h
    · exact absurd h (by simp)
    · split at h
      · exact absurd h (by simp)
      · rename_i githubUrl hg
        simp only [Except.ok.injEq] at h
        subst h
        refine ⟨hg, fun n r hm => ?_⟩
        have h2 := convert_dotSlash_eq p.InputPath (str "./") n r hm rfl
        rw [hg] at h2
        exact (Except.ok.injEq _ _).mp h2

/-- C8 (witness): the theorem applied to a concrete package page with a
constant reader and the identity HTML converter. -/
theorem populateAllProperties_githubUrl_witness :
    convertPackageLinkToUrl (str "packages/pkg/README.md") (str "./") =
      .ok (str "https://github.com/gruntwork-io/pkg/tree/master/README.md") :=
  (populateAllProperties_githubUrl (fun _ => .ok (str "hello world")) (fun b => b)
    { InputPath := str "packages/pkg/README.md",
      FullInputPath := str "in/packages/pkg/README.md",
      OutputPath := str "packages/pkg/README.md",
      Title := [], BodyMarkdown := [], BodyHtml := [], GithubUrl := [] }
    { InputPath := str "packages/pkg/README.md",
      FullInputPath := str "in/packages/pkg/README.md",
      OutputPath := str "packages/pkg/README.md",
      Title := str "README", BodyMarkdown := str "hello world",
      BodyHtml := str "hello world",
      GithubUrl := str "https://github.com/gruntwork-io/pkg/tree/master/README.md" }
    rfl).1
